import Mathlib

/-!
Verification of the prestige-aware reranking engine of `zotero-arxiv-daily`:
shallow embeddings of `institution_scorer.py`, `author_scorer.py` and
`recommender.py`, together with theorems settling the specified properties.

Python floats are modelled by elements of a linear ordered field `R`
(instantiated with `ℝ` in every theorem); `math.log10` / `np.log10` are
passed in as an explicit function argument `log10` (instantiated with
`Real.logb 10`).  Python strings are modelled by `String` / `List Char`,
dicts by association lists (static tables, whose iteration order is the
insertion order) or by functions to `Option` (the mutable caches).
-/

/-! ### Python string primitives used by `institution_scorer.py` -/

/-- Characters stripped by Python's `str.strip()`. -/
def pyIsSpace (c : Char) : Bool :=
  c = ' ' || c = '\t' || c = '\n' || c = '\r' || c = '\x0b' || c = '\x0c'

/-- Drop the longest run of characters satisfying `p` from the front. -/
def dropLeading (p : Char → Bool) : List Char → List Char
  | [] => []
  | c :: rest => if p c then dropLeading p rest else c :: rest

/-- Python `str.strip()`: remove leading and trailing whitespace. -/
def pyStrip (l : List Char) : List Char :=
  ((dropLeading pyIsSpace ((dropLeading pyIsSpace l).reverse)).reverse)

/-- Python `str.lower()` (per-character, as for the ASCII data at hand). -/
def pyLower (l : List Char) : List Char := l.map Char.toLower

/-- Does `l` start with `pat`? -/
def listStarts {α : Type} [DecidableEq α] : List α → List α → Bool
  | [], _ => true
  | _ :: _, [] => false
  | a :: as, b :: bs => a = b && listStarts as bs

/-- Python's `pat in l` substring test. -/
def listContains {α : Type} [DecidableEq α] (pat : List α) : List α → Bool
  | [] => pat.isEmpty
  | b :: rest => listStarts pat (b :: rest) || listContains pat rest

/-- Python `str.split(',')`. -/
def splitComma : List Char → List (List Char)
  | [] => [[]]
  | c :: rest =>
    if c = ',' then [] :: splitComma rest
    else
      match splitComma rest with
      | [] => [[c]]
      | seg :: segs => (c :: seg) :: segs

/-! ### The `re.sub(r'\bPat\b\.?', rep, name, flags=IGNORECASE)` engine

`wordChar` is `\w`; a match of `\bPat\b\.?` at a position needs a word
boundary before it, the (lower-cased) pattern, a word boundary after it,
and then greedily consumes one optional `'.'`.  `re.sub` scans left to
right and replaces every non-overlapping match.  The scan is written with
a fuel argument (the length of the input suffices) so that it is
structurally recursive and evaluates inside the kernel. -/

/-- Python's `\w`: alphanumeric or underscore (ASCII fragment). -/
def wordChar (c : Char) : Bool := c.isAlphanum || c = '_'

/-- Case-insensitive match of a (pre-lower-cased) pattern at the front. -/
def ciStarts : List Char → List Char → Bool
  | [], _ => true
  | _ :: _, [] => false
  | p :: ps, c :: cs => p = c.toLower && ciStarts ps cs

/-- Word boundary holds at the front of `l` (end of string or non-word char). -/
def boundaryAt : List Char → Bool
  | [] => true
  | c :: _ => !wordChar c

/-- One left-to-right `re.sub(r'\bpat\b\.?', rep, ·, IGNORECASE)` scan.
`prev` is the character just before the current position (`none` at the
start of the string), used for the leading word-boundary test. -/
def subWordFuel (pat rep : List Char) : Nat → Option Char → List Char → List Char
  | 0, _, l => l
  | _ + 1, _, [] => []
  | fuel + 1, prev, c :: rest =>
    let boundaryBefore := match prev with
      | none => true
      | some p => !wordChar p
    if boundaryBefore && ciStarts pat (c :: rest) && boundaryAt ((c :: rest).drop pat.length) then
      match (c :: rest).drop pat.length with
      | '.' :: t => rep ++ subWordFuel pat rep fuel (some '.') t
      | after => rep ++ subWordFuel pat rep fuel (some (((c :: rest).take pat.length).getLastD c)) after
    else
      c :: subWordFuel pat rep fuel (some c) rest

/-- `re.sub(r'\bpat\b\.?', rep, l, flags=re.IGNORECASE)`. -/
def pySubWord (pat rep : List Char) (l : List Char) : List Char :=
  subWordFuel pat rep l.length none l

/-- The `replacements` table of `normalize_institution_name`, in insertion
order (patterns stored lower-cased, matching is case-insensitive). -/
def abbrevPairs : List (List Char × List Char) :=
  [("univ".data, "University".data),
   ("coll".data, "College".data),
   ("inst".data, "Institute".data),
   ("tech".data, "Technology".data),
   ("dept".data, "Department".data)]

/-- The `for pattern, replacement in replacements.items(): name = re.sub(...)` loop. -/
def expandAbbrevs (l : List Char) : List Char :=
  abbrevPairs.foldl (fun acc pr => pySubWord pr.1 pr.2 acc) l

/-- The `if ',' in name: ... parts[-1]` step: keep only the last
comma-separated segment (segments stripped), as in the source. -/
def keepLastSegment (l : List Char) : List Char :=
  if l.any (fun c => c == ',') then ((splitComma l).map pyStrip).getLastD [] else l

/-- `InstitutionScorer.normalize_institution_name`. -/
def normalize_institution_name (name : String) : String :=
  if name = "" then ""
  else
    let n1 := pyStrip name.data
    let n2 := expandAbbrevs n1
    let n3 := keepLastSegment n2
    ⟨pyStrip n3⟩

/-! ### `InstitutionScorer` -/

/-- The mutable state of an `InstitutionScorer`: the configured default,
the static score table (a dict, in iteration order) and the resolution
cache (dict from normalized name to score). -/
structure InstitutionScorer (R : Type) where
  default_score : R
  static_scores : List (String × R)
  cache : String → Option R

/-- Python dict assignment `cache[k] = v`. -/
def cacheInsert {R : Type} (cache : String → Option R) (k : String) (v : R) :
    String → Option R :=
  fun n => if n = k then some v else cache n

/-- `InstitutionScorer.fuzzy_match`: a case-insensitive exact pass over the
static table, then a containment pass returning the first entry that is a
substring of the query (or vice versa) and has length `> 3`. -/
def fuzzy_match {R : Type} (static_scores : List (String × R)) (query : String) :
    Option (String × R) :=
  let query_lower := pyLower query.data
  match static_scores.find? (fun e => pyLower e.1.data == query_lower) with
  | some e => some e
  | none =>
    static_scores.find? (fun e =>
      (listContains (pyLower e.1.data) query_lower
        || listContains query_lower (pyLower e.1.data))
      && decide (3 < (pyLower e.1.data).length))

/-- `InstitutionScorer.get_score`: empty-name guard, cache, exact
(case-sensitive dict) lookup, fuzzy match, default; every miss writes the
resolved score into the cache. -/
def InstitutionScorer.get_score {R : Type} (s : InstitutionScorer R)
    (institution : String) : R × InstitutionScorer R :=
  if institution = "" then (s.default_score, s)
  else
    let normalized := normalize_institution_name institution
    match s.cache normalized with
    | some v => (v, s)
    | none =>
      match s.static_scores.find? (fun e => e.1 == normalized) with
      | some e => (e.2, { s with cache := cacheInsert s.cache normalized e.2 })
      | none =>
        match fuzzy_match s.static_scores normalized with
        | some e => (e.2, { s with cache := cacheInsert s.cache normalized e.2 })
        | none =>
          (s.default_score, { s with cache := cacheInsert s.cache normalized s.default_score })

example : normalize_institution_name "Dept. of CS, Stanford Univ." = "Stanford University" := by
  decide

example : normalize_institution_name "MIT CSAIL" = "MIT CSAIL" := by decide

/-! ### `AuthorScorer`

The bibliometric record returned by the Semantic Scholar search (the
external lookup is passed in as `search : String → Option (AuthorData R)`;
its rate limiting and HTTP retry policy are outside the model).  The
`Option` fields mirror the `.get(key, 0)` accesses of the source. -/

structure AuthorData (R : Type) where
  hIndex : Option R
  citationCount : Option R
  paperCount : Option R

/-- A cache entry `{score, data, cached_at}`; `Option` fields mirror the
`.get(key, default)` reads that guard entries loaded from disk. -/
structure AuthorCacheEntry (R : Type) where
  score : Option R
  data : Option (AuthorData R)
  cached_at : Option R

/-- The mutable state of an `AuthorScorer`: the configured default score
and the persistent cache (dict from author name to entry). -/
structure AuthorScorer (R : Type) where
  default_score : R
  cache : String → Option (AuthorCacheEntry R)

/-- Python dict assignment `cache[k] = entry`. -/
def authCacheInsert {R : Type} (cache : String → Option (AuthorCacheEntry R))
    (k : String) (v : AuthorCacheEntry R) : String → Option (AuthorCacheEntry R) :=
  fun n => if n = k then some v else cache n

section AuthorDefs

variable {R : Type} [LinearOrderedField R]

/-- `AuthorScorer.calculate_score`: the h-index / citation / paper-count
formula (the `try/except` of the source guards malformed dynamic types,
which cannot occur in this typed model). -/
def calculate_score (log10 : R → R) (author_data : AuthorData R) : R :=
  let h_index := author_data.hIndex.getD 0
  let citation_count := author_data.citationCount.getD 0
  let paper_count := author_data.paperCount.getD 0
  let h_score := min (h_index / 50 * 100) 100
  let citation_score := if 0 < citation_count then min (log10 citation_count / 5 * 100) 100 else 0
  let paper_score := if 0 < paper_count then min (log10 paper_count / 3 * 100) 100 else 0
  0.5 * h_score + 0.3 * citation_score + 0.2 * paper_score

/-- `AuthorScorer.get_score`: empty-name guard, cache lookup with the
30-day staleness test, then external search; both resolution outcomes are
written back to the cache stamped with the current time `now`. -/
def AuthorScorer.get_score (log10 : R → R) (now : R)
    (search : String → Option (AuthorData R)) (s : AuthorScorer R)
    (author_name : String) : R × AuthorScorer R :=
  if author_name = "" then (s.default_score, s)
  else
    let freshHit : Option R :=
      match s.cache author_name with
      | some cached_data =>
        if now - cached_data.cached_at.getD 0 < 30 * 24 * 3600 then
          some (cached_data.score.getD s.default_score)
        else none
      | none => none
    match freshHit with
    | some v => (v, s)
    | none =>
      match search author_name with
      | some author_data =>
        let score := calculate_score log10 author_data
        (score, { s with
          cache := authCacheInsert s.cache author_name ⟨some score, some author_data, some now⟩ })
      | none =>
        (s.default_score, { s with
          cache := authCacheInsert s.cache author_name ⟨some s.default_score, none, some now⟩ })

/-- Resolution of a name that has no fresh cache entry: external search,
score computation and cache write (the common tail of both re-resolution
paths of `get_score`). -/
def resolveAuthor (log10 : R → R) (now : R)
    (search : String → Option (AuthorData R)) (s : AuthorScorer R)
    (author_name : String) : R × AuthorScorer R :=
  match search author_name with
  | some author_data =>
    let score := calculate_score log10 author_data
    (score, { s with
      cache := authCacheInsert s.cache author_name ⟨some score, some author_data, some now⟩ })
  | none =>
    (s.default_score, { s with
      cache := authCacheInsert s.cache author_name ⟨some s.default_score, none, some now⟩ })

/-- Score a list of names left to right, threading the scorer state
(the `for author in authors_to_check` loop of `get_max_score`). -/
def scoreList (log10 : R → R) (now : R)
    (search : String → Option (AuthorData R)) :
    AuthorScorer R → List String → List R × AuthorScorer R
  | s, [] => ([], s)
  | s, a :: rest =>
    let r := AuthorScorer.get_score log10 now search s a
    let rr := scoreList log10 now search r.2 rest
    (r.1 :: rr.1, rr.2)

/-- Python `max(x :: xs)`. -/
def pyMax (x : R) (xs : List R) : R := xs.foldl max x

/-- `AuthorScorer.get_max_score`: empty list gives the default; at most
three authors are all scored; otherwise only the first and the last are. -/
def AuthorScorer.get_max_score (log10 : R → R) (now : R)
    (search : String → Option (AuthorData R)) (s : AuthorScorer R)
    (authors : List String) : R × AuthorScorer R :=
  if authors.isEmpty then (s.default_score, s)
  else
    let authors_to_check :=
      if authors.length ≤ 3 then authors else [authors.head!, authors.getLast!]
    let r := scoreList log10 now search s authors_to_check
    match r.1 with
    | [] => (s.default_score, r.2)
    | x :: xs => (pyMax x xs, r.2)

/-- Score the given names in order and take the maximum (default for an
empty score list) — the claim-side description of what `get_max_score`
does to a chosen sublist of names. -/
def maxOfScored (log10 : R → R) (now : R)
    (search : String → Option (AuthorData R)) (s : AuthorScorer R)
    (names : List String) : R × AuthorScorer R :=
  let r := scoreList log10 now search s names
  match r.1 with
  | [] => (s.default_score, r.2)
  | x :: xs => (pyMax x xs, r.2)

end AuthorDefs

/-! ### The reranking engine, `recommender.rerank_paper`

A candidate paper carries the caller-owned identity (`arxiv_id`, standing
for all fields the engine does not touch) and the two prestige scores the
engine reads from the paper (`paper.institution_prestige_score` /
`paper.author_prestige_score`, properties that query the two scorers),
plus the four fields the engine assigns.  The embedding capability is
abstracted as `sim i j`, the similarity of candidate `i` (in input order)
to entry `j` of the date-sorted corpus, exactly how the similarity matrix
of the source is indexed.  A corpus entry is modelled by its `dateAdded`
key (its abstract only feeds the similarity oracle). -/

structure ArxivPaper (R : Type) where
  arxiv_id : ℕ
  institution_prestige_score : R
  author_prestige_score : R
  relevance_score : R
  institution_score : R
  author_score : R
  score : R

/-- The caller-owned part of a paper, untouched by the engine. -/
def paperKey {R : Type} (p : ArxivPaper R) : ℕ × R × R :=
  (p.arxiv_id, p.institution_prestige_score, p.author_prestige_score)

section RerankDefs

variable {R : Type} [LinearOrderedField R]

/-- `1 / (1 + np.log10(np.arange(len(corpus)) + 1))`, normalized to sum
to 1 (elementwise division, so the empty corpus yields the empty vector). -/
def timeDecayWeights (log10 : R → R) (m : ℕ) : List R :=
  let raw := (List.range m).map (fun i => 1 / (1 + log10 ((i : R) + 1)))
  raw.map (fun x => x / raw.sum)

/-- `(sim * time_decay_weight).sum(axis=1) * 10` for candidate `i`. -/
def relScore (sim : ℕ → ℕ → R) (w : List R) (i : ℕ) : R :=
  ((w.enum.map (fun jw => sim i jw.1 * jw.2)).sum) * 10

/-- The `paper.relevance_score = relevance_scores[idx].item()` loop. -/
def withRelevance (sim : ℕ → ℕ → R) (w : List R) (candidate : List (ArxivPaper R)) :
    List (ArxivPaper R) :=
  candidate.enum.map (fun ip => { ip.2 with relevance_score := relScore sim w ip.1 })

/-- The per-paper body of the prestige loop: store the two prestige scores
and apply the weighted multiplicative boost. -/
def boostPaper (prestige_weight : R) (p : ArxivPaper R) : ArxivPaper R :=
  let institution_score := p.institution_prestige_score
  let author_score := p.author_prestige_score
  let institution_boost := 0.5 + institution_score / 100
  let author_boost := 0.5 + author_score / 100
  let combined_boost := institution_boost * author_boost
  let weighted_boost := 1 + prestige_weight * (combined_boost - 1)
  { p with institution_score := institution_score, author_score := author_score,
           score := p.relevance_score * max weighted_boost 0 }

/-- Default assignment for papers that get no prestige boost (both the
`rest_candidates` loop and the `use_prestige=False` branch). -/
def plainPaper (p : ArxivPaper R) : ArxivPaper R :=
  { p with institution_score := 50, author_score := 50, score := p.relevance_score }

/-- Sort by relevance descending, split at
`min(len(candidate), max(max_paper_num * 3, 50))`, boost the window and
leave the rest plain. -/
def prestigeSplit (prestige_weight : R) (max_paper_num : ℕ) (l : List (ArxivPaper R)) :
    List (ArxivPaper R) × List (ArxivPaper R) :=
  let srt := l.mergeSort (fun a b => decide (b.relevance_score ≤ a.relevance_score))
  let process_limit := min l.length (max (max_paper_num * 3) 50)
  ((srt.take process_limit).map (boostPaper prestige_weight),
   (srt.drop process_limit).map plainPaper)

/-- The candidate list with all score fields assigned, just before the
final sort. -/
def processedPapers (log10 : R → R) (sim : ℕ → ℕ → R) (candidate : List (ArxivPaper R))
    (corpus : List ℤ) (use_prestige : Bool) (max_paper_num : ℕ) (prestige_weight : R) :
    List (ArxivPaper R) :=
  let corpusSorted := corpus.mergeSort (fun a b => decide (b ≤ a))
  let w := timeDecayWeights log10 corpusSorted.length
  let cand := withRelevance sim w candidate
  if use_prestige then
    let pw := max 0 (min 1 prestige_weight)
    let tr := prestigeSplit pw max_paper_num cand
    tr.1 ++ tr.2
  else
    cand.map plainPaper

/-- `rerank_paper`.  The final `logger.info` line reads `candidate[0]`
and `candidate[-1]`, which raises `IndexError` when the list is empty;
this failure is modelled by `none`. -/
def rerank_paper (log10 : R → R) (sim : ℕ → ℕ → R) (candidate : List (ArxivPaper R))
    (corpus : List ℤ) (use_prestige : Bool) (max_paper_num : ℕ) (prestige_weight : R) :
    Option (List (ArxivPaper R)) :=
  let processed := processedPapers log10 sim candidate corpus use_prestige
    max_paper_num prestige_weight
  let final := processed.mergeSort (fun a b => decide (b.score ≤ a.score))
  match final with
  | [] => none
  | _ :: _ => some final

end RerankDefs

/-! ### Helper lemmas -/

section Helpers

variable {R : Type} [LinearOrderedField R]

theorem paperKey_boost (pw : R) (p : ArxivPaper R) : paperKey (boostPaper pw p) = paperKey p := rfl

theorem paperKey_plain (p : ArxivPaper R) : paperKey (plainPaper p) = paperKey p := rfl

theorem relevance_boost (pw : R) (p : ArxivPaper R) :
    (boostPaper pw p).relevance_score = p.relevance_score := rfl

theorem relevance_plain (p : ArxivPaper R) :
    (plainPaper p).relevance_score = p.relevance_score := rfl

omit [LinearOrderedField R] in
theorem map_key_of_preserving (f : ArxivPaper R → ArxivPaper R)
    (hf : ∀ p, paperKey (f p) = paperKey p) (l : List (ArxivPaper R)) :
    (l.map f).map paperKey = l.map paperKey := by
  rw [List.map_map]
  have h : paperKey ∘ f = (paperKey : ArxivPaper R → ℕ × R × R) := funext hf
  rw [h]

theorem withRelevance_map_key (sim : ℕ → ℕ → R) (w : List R) (l : List (ArxivPaper R)) :
    (withRelevance sim w l).map paperKey = l.map paperKey := by
  unfold withRelevance
  rw [List.map_map]
  have h : (paperKey ∘ fun ip : ℕ × ArxivPaper R =>
      { ip.2 with relevance_score := relScore sim w ip.1 })
      = (fun p : ArxivPaper R => paperKey p) ∘ (Prod.snd : ℕ × ArxivPaper R → ArxivPaper R) :=
    rfl
  rw [h, ← List.map_map, List.enum_map_snd]

theorem withRelevance_length (sim : ℕ → ℕ → R) (w : List R) (l : List (ArxivPaper R)) :
    (withRelevance sim w l).length = l.length := by
  simp [withRelevance, List.enum_length]

theorem mem_withRelevance {sim : ℕ → ℕ → R} {w : List R} {l : List (ArxivPaper R)}
    {p : ArxivPaper R} (hp : p ∈ withRelevance sim w l) :
    ∃ (i : ℕ) (q : ArxivPaper R), p = { q with relevance_score := relScore sim w i } := by
  unfold withRelevance at hp
  obtain ⟨⟨i, q⟩, _, rfl⟩ := List.mem_map.mp hp
  exact ⟨i, q, rfl⟩

theorem processed_map_key (log10 : R → R) (sim : ℕ → ℕ → R) (candidate : List (ArxivPaper R))
    (corpus : List ℤ) (up : Bool) (mpn : ℕ) (pw : R) :
    ((processedPapers log10 sim candidate corpus up mpn pw).map paperKey).Perm
      (candidate.map paperKey) := by
  unfold processedPapers prestigeSplit
  cases up with
  | false =>
    simp only [Bool.false_eq_true, if_false]
    rw [map_key_of_preserving plainPaper paperKey_plain, withRelevance_map_key]
  | true =>
    simp only [if_true, List.map_append]
    rw [map_key_of_preserving (boostPaper (max 0 (min 1 pw)))
        (paperKey_boost (max 0 (min 1 pw)))]
    rw [map_key_of_preserving plainPaper paperKey_plain]
    rw [← List.map_append, List.take_append_drop]
    have h1 := List.Perm.map paperKey (List.mergeSort_perm (withRelevance sim
        (timeDecayWeights log10 (corpus.mergeSort (fun a b => decide (b ≤ a))).length)
        candidate) (fun a b => decide (b.relevance_score ≤ a.relevance_score)))
    rw [withRelevance_map_key] at h1
    exact h1

theorem processed_length (log10 : R → R) (sim : ℕ → ℕ → R) (candidate : List (ArxivPaper R))
    (corpus : List ℤ) (up : Bool) (mpn : ℕ) (pw : R) :
    (processedPapers log10 sim candidate corpus up mpn pw).length = candidate.length := by
  have h := (processed_map_key log10 sim candidate corpus up mpn pw).length_eq
  simpa using h

theorem pairwise_mergeSort_key {α : Type} (f : α → R) (l : List α) :
    (l.mergeSort (fun a b => decide (f b ≤ f a))).Pairwise (fun a b => f b ≤ f a) := by
  have h := @List.sorted_mergeSort _ (fun a b => decide (f b ≤ f a))
    (fun a b c h1 h2 => by
      simp only [decide_eq_true_eq] at *
      exact le_trans h2 h1)
    (fun a b => by
      rcases le_total (f b) (f a) with h | h <;> simp [h]) l
  exact h.imp (fun hab => by simpa using hab)

theorem rerank_eq_some (log10 : R → R) (sim : ℕ → ℕ → R) (candidate : List (ArxivPaper R))
    (corpus : List ℤ) (up : Bool) (mpn : ℕ) (pw : R) (hc : candidate ≠ []) :
    rerank_paper log10 sim candidate corpus up mpn pw =
      some ((processedPapers log10 sim candidate corpus up mpn pw).mergeSort
        (fun a b => decide (b.score ≤ a.score))) := by
  unfold rerank_paper
  have hlen : ((processedPapers log10 sim candidate corpus up mpn pw).mergeSort
      (fun a b => decide (b.score ≤ a.score))).length = candidate.length := by
    rw [List.length_mergeSort]
    exact processed_length log10 sim candidate corpus up mpn pw
  cases hfin : (processedPapers log10 sim candidate corpus up mpn pw).mergeSort
      (fun a b => decide (b.score ≤ a.score)) with
  | nil =>
    exfalso
    rw [hfin] at hlen
    exact hc (List.length_eq_zero.mp hlen.symm)
  | cons a t =>
    simp [hfin]

end Helpers

/-! ### Claim theorems -/

/-- Claim C10: for the empty-string input, both `AuthorScorer.get_score`
and `InstitutionScorer.get_score` return the configured default score
immediately and leave their scorer state (in particular the cache)
unchanged; the result does not depend on the external `search` capability,
so no lookup or table match is performed. -/
theorem empty_name_default_no_write :
    ∀ (log10 : ℝ → ℝ) (now : ℝ) (search : String → Option (AuthorData ℝ))
      (s : AuthorScorer ℝ) (t : InstitutionScorer ℝ),
      AuthorScorer.get_score log10 now search s "" = (s.default_score, s) ∧
      InstitutionScorer.get_score t "" = (t.default_score, t) := by
  intro log10 now search s t
  exact ⟨rfl, rfl⟩

/-- Claim C8: institution-name normalization applies, in order, whitespace
trimming, case-insensitive whole-word expansion of the abbreviations
Univ./Coll./Inst./Tech./Dept., and (when a comma is present) keeping only
the last comma-separated segment; in particular
`"Dept. of CS, Stanford Univ."` normalizes to `"Stanford University"`. -/
theorem normalize_pipeline :
    (∀ name : String, normalize_institution_name name =
        ⟨pyStrip (keepLastSegment (expandAbbrevs (pyStrip name.data)))⟩) ∧
      normalize_institution_name "Dept. of CS, Stanford Univ." = "Stanford University" := by
  constructor
  · intro name
    by_cases h : name = ""
    · subst h; rfl
    · simp [normalize_institution_name, h]
  · decide

/-- Claim C6: the author score computed from metrics is
`0.5*min(h/50*100,100) + 0.3*(c>0 ? min(log10(c)/5*100,100) : 0)
  + 0.2*(p>0 ? min(log10(p)/3*100,100) : 0)`;
`h=50, c=100000, p=1000` yields exactly 100 and `h=0, c=0, p=0` yields
exactly 0. -/
theorem author_score_formula :
    (∀ h c p : ℝ, calculate_score (Real.logb 10) ⟨some h, some c, some p⟩ =
        0.5 * min (h / 50 * 100) 100
          + 0.3 * (if 0 < c then min (Real.logb 10 c / 5 * 100) 100 else 0)
          + 0.2 * (if 0 < p then min (Real.logb 10 p / 3 * 100) 100 else 0)) ∧
      calculate_score (Real.logb 10) ⟨some 50, some 100000, some 1000⟩ = 100 ∧
      calculate_score (Real.logb 10) ⟨some 0, some 0, some 0⟩ = 0 := by
  have hb : (1 : ℝ) < 10 := by norm_num
  have hlog5 : Real.logb 10 (100000 : ℝ) = 5 := by
    have h : (100000 : ℝ) = 10 ^ (5 : ℕ) := by norm_num
    rw [h, Real.logb_pow, Real.logb_self_eq_one hb]
    norm_num
  have hlog3 : Real.logb 10 (1000 : ℝ) = 3 := by
    have h : (1000 : ℝ) = 10 ^ (3 : ℕ) := by norm_num
    rw [h, Real.logb_pow, Real.logb_self_eq_one hb]
    norm_num
  refine ⟨fun h c p => rfl, ?_, ?_⟩
  · show (0.5 : ℝ) * min ((50 : ℝ) / 50 * 100) 100
        + 0.3 * (if (0 : ℝ) < 100000 then min (Real.logb 10 (100000 : ℝ) / 5 * 100) 100 else 0)
        + 0.2 * (if (0 : ℝ) < 1000 then min (Real.logb 10 (1000 : ℝ) / 3 * 100) 100 else 0)
        = 100
    rw [if_pos (by norm_num : (0 : ℝ) < 100000), if_pos (by norm_num : (0 : ℝ) < 1000),
      hlog5, hlog3]
    norm_num
  · show (0.5 : ℝ) * min ((0 : ℝ) / 50 * 100) 100
        + 0.3 * (if (0 : ℝ) < 0 then min (Real.logb 10 (0 : ℝ) / 5 * 100) 100 else 0)
        + 0.2 * (if (0 : ℝ) < 0 then min (Real.logb 10 (0 : ℝ) / 3 * 100) 100 else 0)
        = 0
    rw [if_neg (by norm_num : ¬ (0 : ℝ) < 0)]
    norm_num

/-- Claim C7: `get_max_score` returns the default score for an empty
author list, scores every name (in order, threading the cache) and takes
the maximum when the list has at most 3 names, and scores only the first
and the last name when the list has more than 3 names. -/
theorem author_max_score_selection (log10 : ℝ → ℝ) (now : ℝ)
    (search : String → Option (AuthorData ℝ)) (s : AuthorScorer ℝ) (authors : List String) :
    AuthorScorer.get_max_score log10 now search s authors =
      if authors = [] then (s.default_score, s)
      else if authors.length ≤ 3 then maxOfScored log10 now search s authors
      else maxOfScored log10 now search s [authors.head!, authors.getLast!] := by
  unfold AuthorScorer.get_max_score maxOfScored
  by_cases h : authors = []
  · simp [h]
  · have hne : authors.isEmpty = false := by
      simpa [List.isEmpty_iff] using h
    rw [if_neg h, hne]
    by_cases h3 : authors.length ≤ 3
    · simp [h3]
    · simp [h3]

/-- Claim C5: for a non-empty author name, a cache entry younger than 30
days is returned as-is with no state change and no external lookup; a
stale (≥ 30 days) or missing entry leads to re-resolution
(`resolveAuthor`): the external search result is scored and written to the
cache with `cached_at = now`, and an unresolved name is cached with the
default score and `cached_at = now`. -/
theorem author_cache_staleness (log10 : ℝ → ℝ) (now : ℝ)
    (search : String → Option (AuthorData ℝ)) (s : AuthorScorer ℝ)
    (name : String) (h : name ≠ "") :
    AuthorScorer.get_score log10 now search s name =
      match s.cache name with
      | some cached_data =>
        if now - cached_data.cached_at.getD 0 < 30 * 24 * 3600 then
          (cached_data.score.getD s.default_score, s)
        else resolveAuthor log10 now search s name
      | none => resolveAuthor log10 now search s name := by
  unfold AuthorScorer.get_score resolveAuthor
  rw [if_neg h]
  cases hc : s.cache name with
  | none => rfl
  | some cached_data =>
    by_cases hfresh : now - cached_data.cached_at.getD 0 < 30 * 24 * 3600
    · simp [hfresh]
    · simp [hfresh]

/-- The hypothesis of `author_cache_staleness` holds and the equation it
states is realized at a concrete input: name `"A"`, an empty cache, a
failing search and `now = 0`. -/
theorem author_cache_staleness_witness :
    ("A" : String) ≠ "" ∧
      AuthorScorer.get_score (Real.logb 10) 0 (fun _ => none)
          (⟨50, fun _ => none⟩ : AuthorScorer ℝ) "A" =
        match (⟨50, fun _ => none⟩ : AuthorScorer ℝ).cache "A" with
        | some cached_data =>
          if (0 : ℝ) - cached_data.cached_at.getD 0 < 30 * 24 * 3600 then
            (cached_data.score.getD (⟨50, fun _ => none⟩ : AuthorScorer ℝ).default_score,
              (⟨50, fun _ => none⟩ : AuthorScorer ℝ))
          else resolveAuthor (Real.logb 10) 0 (fun _ => none)
            (⟨50, fun _ => none⟩ : AuthorScorer ℝ) "A"
        | none => resolveAuthor (Real.logb 10) 0 (fun _ => none)
            (⟨50, fun _ => none⟩ : AuthorScorer ℝ) "A" :=
  ⟨by decide, author_cache_staleness (Real.logb 10) 0 (fun _ => none)
    (⟨50, fun _ => none⟩ : AuthorScorer ℝ) "A" (by decide)⟩

/-- Claim C2 (code bug): `rerank_paper` called with an empty candidate
list does not return the empty list: the final
`logger.info(f"... {candidate[0].score} ... {candidate[-1].score}")`
statement indexes into the empty result and raises `IndexError`
(modelled by `none`), for every corpus and every setting of the
prestige options. -/
theorem rerank_empty_candidates_fails (log10 : ℝ → ℝ) (sim : ℕ → ℕ → ℝ) (corpus : List ℤ)
    (use_prestige : Bool) (max_paper_num : ℕ) (prestige_weight : ℝ) :
    rerank_paper log10 sim [] corpus use_prestige max_paper_num prestige_weight = none := by
  unfold rerank_paper processedPapers prestigeSplit withRelevance
  cases use_prestige <;> simp

/-- A concrete `InstitutionScorer` whose static table holds exactly
`"MIT"` with score 95, with an empty cache and default score 50. -/
def mitScorer : InstitutionScorer ℝ := ⟨50, [("MIT", 95)], fun _ => none⟩

/-- Claim C4 counterexample: with the static table `{"MIT": 95}`,
`get_score "MIT CSAIL"` does not return 95 — the entry `"MIT"` has length
exactly 3, which fails the strict `len > 3` test of the containment pass,
so resolution falls through to the default score 50. -/
theorem fuzzy_match_mit_counterexample :
    (InstitutionScorer.get_score mitScorer "MIT CSAIL").1 ≠ 95 := by
  have h : (InstitutionScorer.get_score mitScorer "MIT CSAIL").1 = 50 := rfl
  rw [h]
  norm_num

/-- Claim C4 (amended): after the cache, the exact (case-sensitive) and
the case-insensitive exact levels all fail, institution resolution returns
the score of the first static-table entry (in iteration order) that is a
case-insensitive substring of the normalized query or vice versa AND whose
length strictly exceeds 3, defaulting when no entry qualifies; since
`"MIT"` has length exactly 3, querying `"MIT CSAIL"` against the table
`{"MIT": 95}` returns the default score, not 95. -/
theorem fuzzy_containment_resolution (s : InstitutionScorer ℝ) (inst : String)
    (h0 : inst ≠ "")
    (hcache : s.cache (normalize_institution_name inst) = none)
    (hexact : s.static_scores.find? (fun e => e.1 == normalize_institution_name inst) = none)
    (hci : s.static_scores.find? (fun e =>
        pyLower e.1.data == pyLower (normalize_institution_name inst).data) = none) :
    (InstitutionScorer.get_score s inst).1 =
      (match s.static_scores.find? (fun e =>
          (listContains (pyLower e.1.data) (pyLower (normalize_institution_name inst).data)
            || listContains (pyLower (normalize_institution_name inst).data) (pyLower e.1.data))
          && decide (3 < (pyLower e.1.data).length)) with
        | some e => e.2
        | none => s.default_score) ∧
      (InstitutionScorer.get_score mitScorer "MIT CSAIL").1 = mitScorer.default_score := by
  constructor
  · unfold InstitutionScorer.get_score fuzzy_match
    rw [if_neg h0]
    simp only [hcache, hexact, hci]
    cases hfm : s.static_scores.find? (fun e =>
        (listContains (pyLower e.1.data) (pyLower (normalize_institution_name inst).data)
          || listContains (pyLower (normalize_institution_name inst).data) (pyLower e.1.data))
        && decide (3 < (pyLower e.1.data).length)) with
    | none => simp [hfm]
    | some e => simp [hfm]
  · rfl

/-- The hypotheses of `fuzzy_containment_resolution` hold and its
conclusion is realized at the concrete input of the claim's example:
the scorer `{"MIT": 95}` and the query `"MIT CSAIL"`. -/
theorem fuzzy_containment_resolution_witness :
    ("MIT CSAIL" : String) ≠ "" ∧
      ((InstitutionScorer.get_score mitScorer "MIT CSAIL").1 =
        (match mitScorer.static_scores.find? (fun e =>
            (listContains (pyLower e.1.data)
                (pyLower (normalize_institution_name "MIT CSAIL").data)
              || listContains (pyLower (normalize_institution_name "MIT CSAIL").data)
                (pyLower e.1.data))
            && decide (3 < (pyLower e.1.data).length)) with
          | some e => e.2
          | none => mitScorer.default_score) ∧
        (InstitutionScorer.get_score mitScorer "MIT CSAIL").1 = mitScorer.default_score) :=
  ⟨by decide, fuzzy_containment_resolution mitScorer "MIT CSAIL" (by decide) rfl rfl rfl⟩

/-- Claim C1: for a non-empty candidate list (and non-empty corpus),
`rerank_paper` returns exactly the papers it was given — a permutation of
the input modulo the engine-assigned score fields (`paperKey` is the
caller-owned part), nothing dropped or added — ordered descending by the
final `score` field. -/
theorem rerank_returns_sorted_permutation (log10 : ℝ → ℝ) (sim : ℕ → ℕ → ℝ)
    (candidate : List (ArxivPaper ℝ)) (corpus : List ℤ) (use_prestige : Bool)
    (max_paper_num : ℕ) (prestige_weight : ℝ)
    (hcand : candidate ≠ []) (hcorp : corpus ≠ []) :
    ∃ out : List (ArxivPaper ℝ),
      rerank_paper log10 sim candidate corpus use_prestige max_paper_num prestige_weight
        = some out ∧
      (out.map paperKey).Perm (candidate.map paperKey) ∧
      out.Sorted (fun a b => b.score ≤ a.score) := by
  refine ⟨_, rerank_eq_some log10 sim candidate corpus use_prestige max_paper_num
    prestige_weight hcand, ?_, ?_⟩
  · exact (List.Perm.map paperKey (List.mergeSort_perm _ _)).trans
      (processed_map_key log10 sim candidate corpus use_prestige max_paper_num prestige_weight)
  · exact pairwise_mergeSort_key (fun p : ArxivPaper ℝ => p.score) _

/-- A concrete candidate paper used by the witnesses. -/
def paper0 : ArxivPaper ℝ := ⟨0, 50, 50, 0, 0, 0, 0⟩

/-- The hypotheses of `rerank_returns_sorted_permutation` hold and its
conclusion is realized at a concrete input: one candidate paper and a
one-entry corpus. -/
theorem rerank_returns_sorted_permutation_witness :
    ([paper0] : List (ArxivPaper ℝ)) ≠ [] ∧ ([0] : List ℤ) ≠ [] ∧
      ∃ out : List (ArxivPaper ℝ),
        rerank_paper (Real.logb 10) (fun _ _ => 0) [paper0] [0] true 100 1 = some out ∧
        (out.map paperKey).Perm ([paper0].map paperKey) ∧
        out.Sorted (fun a b => b.score ≤ a.score) :=
  ⟨List.cons_ne_nil _ _, List.cons_ne_nil _ _,
    rerank_returns_sorted_permutation (Real.logb 10) (fun _ _ => 0) [paper0] [0] true 100 1
      (List.cons_ne_nil _ _) (List.cons_ne_nil _ _)⟩

/-- Claim C3: with prestige enabled, the processing window consists of
exactly `min(candidate count, max(maxPaperCount*3, 50))` papers — those
with the highest relevance — whose prestige fields are resolved
(`institution_score`/`author_score` copied from the papers' prestige
scores); every paper outside the window gets
`institution_score = author_score = 50` and `score = relevance_score`
(no boost).  With `maxPaperCount = 10` and 200 candidates the window has
`min 200 (max 30 50) = 50` papers and 150 papers stay unboosted. -/
theorem rerank_prestige_window (log10 : ℝ → ℝ) (sim : ℕ → ℕ → ℝ)
    (candidate : List (ArxivPaper ℝ)) (corpus : List ℤ)
    (max_paper_num : ℕ) (prestige_weight : ℝ) (hcand : candidate ≠ []) :
    ∃ (out window rest : List (ArxivPaper ℝ)),
      rerank_paper log10 sim candidate corpus true max_paper_num prestige_weight
        = some out ∧
      (window, rest) = prestigeSplit (max 0 (min 1 prestige_weight)) max_paper_num
        (withRelevance sim (timeDecayWeights log10 corpus.length) candidate) ∧
      window.length = min candidate.length (max (max_paper_num * 3) 50) ∧
      rest.length = candidate.length - min candidate.length (max (max_paper_num * 3) 50) ∧
      out.Perm (window ++ rest) ∧
      (∀ p ∈ window, p.institution_score = p.institution_prestige_score ∧
        p.author_score = p.author_prestige_score) ∧
      (∀ p ∈ rest, p.institution_score = 50 ∧ p.author_score = 50 ∧
        p.score = p.relevance_score) ∧
      (∀ p ∈ window, ∀ q ∈ rest, q.relevance_score ≤ p.relevance_score) := by
  have hmslen : ((corpus.mergeSort (fun a b => decide (b ≤ a))).length) = corpus.length :=
    List.length_mergeSort corpus
  set cand := withRelevance sim (timeDecayWeights log10 corpus.length) candidate with hcanddef
  set pw := max 0 (min 1 prestige_weight) with hpwdef
  have hproc : processedPapers log10 sim candidate corpus true max_paper_num prestige_weight
      = (prestigeSplit pw max_paper_num cand).1 ++ (prestigeSplit pw max_paper_num cand).2 := by
    unfold processedPapers
    simp only [hmslen, if_true, hcanddef]
  have hcandlen : cand.length = candidate.length := withRelevance_length _ _ _
  set srt := cand.mergeSort (fun a b => decide (b.relevance_score ≤ a.relevance_score))
    with hsrtdef
  have hsrtlen : srt.length = candidate.length := by
    rw [hsrtdef, List.length_mergeSort, hcandlen]
  set limit := min cand.length (max (max_paper_num * 3) 50) with hlimitdef
  have hlimit : limit = min candidate.length (max (max_paper_num * 3) 50) := by
    rw [hlimitdef, hcandlen]
  have hsplit : prestigeSplit pw max_paper_num cand
      = ((srt.take limit).map (boostPaper pw), (srt.drop limit).map plainPaper) := rfl
  refine ⟨_, (srt.take limit).map (boostPaper pw), (srt.drop limit).map plainPaper,
    rerank_eq_some log10 sim candidate corpus true max_paper_num prestige_weight hcand,
    by rw [hsplit], ?_, ?_, ?_, ?_, ?_, ?_⟩
  · rw [List.length_map, List.length_take, hsrtlen, hlimit]
    exact min_eq_left (min_le_left _ _)
  · rw [List.length_map, List.length_drop, hsrtlen, hlimit]
  · have heq : processedPapers log10 sim candidate corpus true max_paper_num prestige_weight
        = (srt.take limit).map (boostPaper pw) ++ (srt.drop limit).map plainPaper := by
      rw [hproc, hsplit]
    rw [← heq]
    exact List.mergeSort_perm _ _
  · intro p hp
    obtain ⟨q, _, rfl⟩ := List.mem_map.mp hp
    exact ⟨rfl, rfl⟩
  · intro p hp
    obtain ⟨q, _, rfl⟩ := List.mem_map.mp hp
    exact ⟨rfl, rfl, rfl⟩
  · intro p hp q hq
    obtain ⟨x, hx, rfl⟩ := List.mem_map.mp hp
    obtain ⟨y, hy, rfl⟩ := List.mem_map.mp hq
    have hsorted := pairwise_mergeSort_key
      (fun p : ArxivPaper ℝ => p.relevance_score) cand
    rw [← hsrtdef] at hsorted
    rw [← List.take_append_drop limit srt] at hsorted
    exact (List.pairwise_append.mp hsorted).2.2 x hx y hy

/-- Two hundred distinct concrete candidate papers. -/
def cand200 : List (ArxivPaper ℝ) :=
  (List.range 200).map (fun i => ⟨i, 50, 50, 0, 0, 0, 0⟩)

/-- The hypothesis of `rerank_prestige_window` holds and its conclusion is
realized at the concrete input of the claim's example: 200 candidates and
`maxPaperCount = 10` (so the window holds `min 200 (max 30 50) = 50`
papers and 150 papers are unboosted). -/
theorem rerank_prestige_window_witness :
    cand200 ≠ [] ∧
      ∃ (out window rest : List (ArxivPaper ℝ)),
        rerank_paper (Real.logb 10) (fun _ _ => 0) cand200 [] true 10 1 = some out ∧
        (window, rest) = prestigeSplit (max 0 (min 1 1)) 10
          (withRelevance (fun _ _ => 0) (timeDecayWeights (Real.logb 10) ([] : List ℤ).length)
            cand200) ∧
        window.length = min cand200.length (max (10 * 3) 50) ∧
        rest.length = cand200.length - min cand200.length (max (10 * 3) 50) ∧
        out.Perm (window ++ rest) ∧
        (∀ p ∈ window, p.institution_score = p.institution_prestige_score ∧
          p.author_score = p.author_prestige_score) ∧
        (∀ p ∈ rest, p.institution_score = 50 ∧ p.author_score = 50 ∧
          p.score = p.relevance_score) ∧
        (∀ p ∈ window, ∀ q ∈ rest, q.relevance_score ≤ p.relevance_score) :=
  ⟨by simp [cand200], rerank_prestige_window (Real.logb 10) (fun _ _ => 0) cand200 [] 10 1
    (by simp [cand200])⟩

/-- Relevance of any paper in `processedPapers` over the empty corpus
is zero: the weight vector is empty, so the weighted similarity sum is
the empty sum. -/
theorem processed_relevance_zero (log10 : ℝ → ℝ) (sim : ℕ → ℕ → ℝ)
    (candidate : List (ArxivPaper ℝ)) (up : Bool) (mpn : ℕ) (pw : ℝ) :
    ∀ p ∈ processedPapers log10 sim candidate ([] : List ℤ) up mpn pw,
      p.relevance_score = 0 := by
  intro p hp
  have hrel0 : ∀ q ∈ withRelevance sim
      (timeDecayWeights log10 ((([] : List ℤ).mergeSort (fun a b => decide (b ≤ a))).length))
      candidate, q.relevance_score = 0 := by
    intro q hq
    obtain ⟨i, q₀, rfl⟩ := mem_withRelevance hq
    show relScore sim (timeDecayWeights log10
      ((([] : List ℤ).mergeSort (fun a b => decide (b ≤ a))).length)) i = 0
    simp [List.mergeSort_nil, timeDecayWeights, relScore]
  unfold processedPapers prestigeSplit at hp
  cases up with
  | false =>
    simp only [Bool.false_eq_true, if_false] at hp
    obtain ⟨q, hq, rfl⟩ := List.mem_map.mp hp
    exact hrel0 q hq
  | true =>
    simp only [if_true] at hp
    rcases List.mem_append.mp hp with hmem | hmem
    · obtain ⟨q, hq, rfl⟩ := List.mem_map.mp hmem
      have hq' := List.mem_mergeSort.mp (List.mem_of_mem_take hq)
      exact hrel0 q hq'
    · obtain ⟨q, hq, rfl⟩ := List.mem_map.mp hmem
      have hq' := List.mem_mergeSort.mp (List.mem_of_mem_drop hq)
      exact hrel0 q hq'

/-- Claim C9: `rerank_paper` on an empty reference corpus does not fail
(given a non-empty candidate list, which is needed independently of the
corpus): every candidate ends up with zero relevance and a ranked
(descending-by-score) output is still produced. -/
theorem rerank_empty_corpus_zero_relevance (log10 : ℝ → ℝ) (sim : ℕ → ℕ → ℝ)
    (candidate : List (ArxivPaper ℝ)) (use_prestige : Bool)
    (max_paper_num : ℕ) (prestige_weight : ℝ) (hcand : candidate ≠ []) :
    ∃ out : List (ArxivPaper ℝ),
      rerank_paper log10 sim candidate [] use_prestige max_paper_num prestige_weight
        = some out ∧
      (∀ p ∈ out, p.relevance_score = 0) ∧
      out.Sorted (fun a b => b.score ≤ a.score) := by
  refine ⟨_, rerank_eq_some log10 sim candidate [] use_prestige max_paper_num
    prestige_weight hcand, ?_, pairwise_mergeSort_key (fun p : ArxivPaper ℝ => p.score) _⟩
  intro p hp
  exact processed_relevance_zero log10 sim candidate use_prestige max_paper_num
    prestige_weight p (List.mem_mergeSort.mp hp)

/-- The hypothesis of `rerank_empty_corpus_zero_relevance` holds and its
conclusion is realized at a concrete input: one candidate paper against
the empty corpus. -/
theorem rerank_empty_corpus_zero_relevance_witness :
    ([paper0] : List (ArxivPaper ℝ)) ≠ [] ∧
      ∃ out : List (ArxivPaper ℝ),
        rerank_paper (Real.logb 10) (fun _ _ => 0) [paper0] [] false 100 1 = some out ∧
        (∀ p ∈ out, p.relevance_score = 0) ∧
        out.Sorted (fun a b => b.score ≤ a.score) :=
  ⟨List.cons_ne_nil _ _,
    rerank_empty_corpus_zero_relevance (Real.logb 10) (fun _ _ => 0) [paper0] false 100 1
      (List.cons_ne_nil _ _)⟩
